import Mathlib

/-!
# Verification of the SQL Visualizer execution-trace engine

Shallow embedding of the core logic of `src/app.py`:

* `parse_sql_steps`  (app.py lines 71-92): descriptive clause-body split,
  built on `re.split` with the pattern
  `(\bSELECT\b|\bFROM\b|\bWHERE\b|\bJOIN\b|\bGROUP BY\b|\bORDER BY\b)`
  (case-insensitive).
* `generate_execution_trace` (app.py lines 94-130): per-line clause scan
  (`re.search(rf'\b{kw}\b', line, IGNORECASE)` for the eleven activity
  keywords), aggregate detection
  (`\b(AVG|SUM|COUNT|MIN|MAX)\((\w+)\)(?:\s+AS\s+\w+)?\s+FROM\s+(\w+)`),
  fallback table detection (`\bFROM\s+(\w+)`), base-table cell walk and
  the final event list.

The regexes use only word-bounded literal alternations, `\w+`, `\s+` and one
optional group, so each one is embedded as a dedicated matcher with Python
`re` semantics (leftmost search, alternation in order, greedy repetition).
Because `\w` and `\s` denote disjoint character classes and no alternative
of any alternation is a prefix of another, greedy maximal-munch with a
single fallback for the optional group is exactly the backtracking
behaviour of the original patterns.

Character classes model the ASCII behaviour of Python `\w`, `\s` and
`str.strip()` (the repository only ever feeds ASCII SQL to these functions).

The database connection is external to the engine; it is embedded as a
`DB` record of two oracles: `readTable t` models
`pd.read_sql_query(f"SELECT * FROM {t}", conn)` (`none` = the call raises,
e.g. no such table) and `runQuery q` models `pd.read_sql_query(q, conn)`.
Python string interpolation turns `tbl = None` into the literal table name
`"None"`, which the embedding reproduces.
-/

namespace SQLViz

/-- ASCII model of Python's `\w` character class: `[A-Za-z0-9_]`. -/
def isWordChar (c : Char) : Bool := c.isAlphanum || c == '_'

/-- ASCII model of Python's `\s` character class / `str.strip()` whitespace:
space, tab, newline, carriage return, vertical tab, form feed. -/
def isPySpace (c : Char) : Bool :=
  c == ' ' || c == '\t' || c == '\n' || c == '\r' || c == '\x0b' || c == '\x0c'

/-- Case-insensitive literal match of `pat` at the head of `s`;
returns the rest of the input on success.  Models matching the literal
characters of a regex with `re.IGNORECASE`. -/
def matchCI : List Char → List Char → Option (List Char)
  | [], s => some s
  | _ :: _, [] => none
  | p :: ps, c :: cs => if p.toLower == c.toLower then matchCI ps cs else none

/-- `\b` immediately before a keyword that starts with a word character:
the previous character (if any) must not be a word character. -/
def boundaryOk (prev : Option Char) : Bool := !(prev.any isWordChar)

/-- Match `\bKW\b` (case-insensitive) at the head of `s`, where `prev` is the
character immediately preceding this position in the full input.
All keywords used start and end with a word character, so the boundaries
are exactly "previous char not a word char" and "next char not a word char".
Returns the matched input text and the rest. -/
def kwMatch (kw : String) (prev : Option Char) (s : List Char) :
    Option (List Char × List Char) :=
  if boundaryOk prev then
    match matchCI kw.data s with
    | some rest =>
        if rest.head?.any isWordChar then none
        else some (s.take kw.data.length, rest)
    | none => none
  else none

/-- `re.search(rf'\b{kw}\b', line, re.IGNORECASE) is not None`:
try every start position from left to right. -/
def searchKw (kw : String) : Option Char → List Char → Bool
  | _, [] => false
  | prev, c :: cs => (kwMatch kw prev (c :: cs)).isSome || searchKw kw (some c) cs

/-- The keyword list of the per-line clause scan, app.py line 99. -/
def activity_keywords : List String :=
  ["SELECT", "FROM", "WHERE", "JOIN", "GROUP BY", "ORDER BY",
   "COUNT", "SUM", "AVG", "MIN", "MAX"]

/-- The inner `for kw in [...]` loop with `break` appends at most one event
per line: the line fires iff some keyword matches it. -/
def lineHasKeyword (line : List Char) : Bool :=
  activity_keywords.any (fun kw => searchKw kw none line)

/-- Python `str.strip()` (ASCII whitespace model). -/
def pyStrip (s : List Char) : List Char :=
  ((s.dropWhile isPySpace).reverse.dropWhile isPySpace).reverse

/-- Python `str.split('\n')`: split on every newline, keeping empty pieces
(`"".split('\n') == ['']`). -/
def splitNL : List Char → List (List Char)
  | [] => [[]]
  | c :: cs =>
    match splitNL cs with
    | [] => [[]]
    | line :: rest =>
      if c == '\n' then [] :: line :: rest else (c :: line) :: rest

/-- A cell-reveal event's source table: the base table walk or the
aggregate result (`'mode': 'base' | 'agg'`). -/
inductive CellMode where
  | base
  | agg
deriving DecidableEq, Repr

/-- One visualization event of the trace
(`{'type':'clause',...}`, `{'type':'cell',...}`, `{'type':'complete'}`). -/
inductive TraceEvent where
  | clause (line : Nat)
  | cell (mode : CellMode) (row : Nat) (col : Nat)
  | complete
deriving DecidableEq, Repr

/-- The clause-event loop of app.py lines 98-102: one event per line that
contains some activity keyword, in line order. -/
def clauseEvents (lines : List (List Char)) : List TraceEvent :=
  lines.enum.filterMap
    (fun p => if lineHasKeyword p.2 then some (TraceEvent.clause p.1) else none)

/-- Greedy `+` over a character class (`\w+` or `\s+`): the maximal nonempty
run; fails if the first character is not in the class.  Followed in every
pattern below by a construct that cannot match a character of the same
class, so maximal munch is exact. -/
def plusWhile (p : Char → Bool) (s : List Char) : Option (List Char × List Char) :=
  match s.takeWhile p with
  | [] => none
  | t => some (t, s.dropWhile p)

/-- `\s+FROM\s+(\w+)` (case-insensitive, no word boundaries of its own):
returns the captured table name. -/
def fromTail (s : List Char) : Option (List Char) :=
  (plusWhile isPySpace s).bind fun p1 =>
  (matchCI "FROM".data p1.2).bind fun s2 =>
  (plusWhile isPySpace s2).bind fun p3 =>
  (plusWhile isWordChar p3.2).map fun p4 => p4.1

/-- The optional-group branch `\s+AS\s+\w+` followed by `\s+FROM\s+(\w+)`. -/
def asTail (s : List Char) : Option (List Char) :=
  (plusWhile isPySpace s).bind fun p1 =>
  (matchCI "AS".data p1.2).bind fun s2 =>
  (plusWhile isPySpace s2).bind fun p3 =>
  (plusWhile isWordChar p3.2).bind fun p4 =>
  fromTail p4.2

/-- `(?:\s+AS\s+\w+)?\s+FROM\s+(\w+)`: the greedy optional group is tried
first, then dropped. -/
def aggTail (s : List Char) : Option (List Char) :=
  match asTail s with
  | some tbl => some tbl
  | none => fromTail s

/-- The aggregate alternation, in the regex's preference order. -/
def agg_alternatives : List String := ["AVG", "SUM", "COUNT", "MIN", "MAX"]

/-- Match `\b(AVG|SUM|COUNT|MIN|MAX)\((\w+)\)(?:\s+AS\s+\w+)?\s+FROM\s+(\w+)`
anchored at the current position; returns the three captured groups
(function text as matched, column, table). -/
def aggAt (prev : Option Char) (s : List Char) : Option (String × String × String) :=
  if boundaryOk prev then
    agg_alternatives.findSome? (fun fn =>
      (matchCI fn.data s).bind fun s1 =>
      (matchCI "(".data s1).bind fun s2 =>
      (plusWhile isWordChar s2).bind fun pcol =>
      (matchCI ")".data pcol.2).bind fun s4 =>
      (aggTail s4).map fun tbl =>
        (String.mk (s.take fn.data.length), String.mk pcol.1, String.mk tbl))
  else none

/-- `re.search` scan for the aggregate pattern: first matching start
position, left to right. -/
def aggSearchGo : Option Char → List Char → Option (String × String × String)
  | _, [] => none
  | prev, c :: cs =>
    match aggAt prev (c :: cs) with
    | some r => some r
    | none => aggSearchGo (some c) cs

/-- The aggregate detector of app.py lines 105-108. -/
def aggSearch (q : String) : Option (String × String × String) :=
  aggSearchGo none q.data

/-- Match `\bFROM\s+(\w+)` anchored at the current position. -/
def fromAt (prev : Option Char) (s : List Char) : Option String :=
  if boundaryOk prev then
    (matchCI "FROM".data s).bind fun s1 =>
    (plusWhile isPySpace s1).bind fun p2 =>
    (plusWhile isWordChar p2.2).map fun p3 => String.mk p3.1
  else none

/-- `re.search` scan for `\bFROM\s+(\w+)`. -/
def fromSearchGo : Option Char → List Char → Option String
  | _, [] => none
  | prev, c :: cs =>
    match fromAt prev (c :: cs) with
    | some r => some r
    | none => fromSearchGo (some c) cs

/-- The fallback table detector of app.py line 114. -/
def fromSearch (q : String) : Option String :=
  fromSearchGo none q.data

/-- A materialized result set: ordered rows of scalar cells.  Cell contents
are opaque to the engine; they are modelled as strings. -/
abbrev ResultSet := List (List String)

/-- The external database connection, as seen by the trace builder.
`readTable t` models `pd.read_sql_query(f"SELECT * FROM {t}", conn)` and
`runQuery q` models `pd.read_sql_query(q, conn)`; `none` means the call
raises (e.g. no such table / invalid SQL), in which case the Python
function propagates the exception and returns nothing. -/
structure DB where
  readTable : String → Option ResultSet
  runQuery : String → Option ResultSet

/-- The base-table cell walk of app.py lines 119-121:
`for i, row in enumerate(df_base.values.tolist()): for j in range(len(row))`. -/
def baseCellEvents (df : ResultSet) : List TraceEvent :=
  df.enum.flatMap
    (fun p => (List.range p.2.length).map (fun j => TraceEvent.cell CellMode.base p.1 j))

/-- The table name whose full contents the builder reads
(app.py lines 110-116 and the f-string of line 118): the third capture of
the aggregate match if it matched, else the capture of `\bFROM\s+(\w+)`,
else Python's `None` interpolated into the f-string as the literal text
`None`. -/
def tableOf (query : String) : String :=
  match aggSearch query with
  | some r => r.2.2
  | none =>
    match fromSearch query with
    | some t => t
    | none => "None"

/-- `generate_execution_trace` of app.py lines 94-130.

The Python code also binds `fn, col` from the aggregate match (or
`col = None` in the fallback); those locals are never used afterwards and
are omitted.  When neither the aggregate pattern nor `\bFROM\s+(\w+)`
matches, the code executes `SELECT * FROM None` (see `tableOf`). -/
def generate_execution_trace (query : String) (db : DB) :
    Option (List TraceEvent × ResultSet × Option ResultSet) :=
  match db.readTable (tableOf query) with
  | none => none
  | some df_base =>
    match aggSearch query with
    | some _ =>
      match db.runQuery query with
      | none => none
      | some df_agg =>
        some (clauseEvents (splitNL (pyStrip query.data)) ++ baseCellEvents df_base
                ++ [TraceEvent.cell CellMode.agg 0 0] ++ [TraceEvent.complete],
              df_base, some df_agg)
    | none =>
      some (clauseEvents (splitNL (pyStrip query.data)) ++ baseCellEvents df_base
              ++ [TraceEvent.complete],
            df_base, none)

/-- The `re.split` pattern alternatives of app.py lines 73-76, in order. -/
def split_pattern : List String :=
  ["SELECT", "FROM", "WHERE", "JOIN", "GROUP BY", "ORDER BY"]

/-- First alternative of the split pattern that matches at the current
position.  The six alternatives start with six distinct letters, so at most
one can match at a given position. -/
def firstKwMatch : List String → Option Char → List Char → Option (List Char × List Char)
  | [], _, _ => none
  | kw :: kws, prev, s =>
    match kwMatch kw prev s with
    | some r => some r
    | none => firstKwMatch kws prev s

/-- A separator of the descriptive split at the current position. -/
def sepAt (prev : Option Char) (s : List Char) : Option (List Char × List Char) :=
  firstKwMatch split_pattern prev s

/-- `re.split` with a capturing group: pieces and matched separators
alternate, starting and ending with a (possibly empty) piece.  After a
separator of length `n` the scan resumes `n` characters further on.
`fuel` is an upper bound on the remaining input length, making the
recursion structural; every step consumes at least one character, so any
`fuel ≥ s.length` gives the untruncated behaviour. -/
def splitGoF : Nat → Option Char → List Char → List Char → List (List Char)
  | 0, _, acc, s => [acc ++ s]
  | fuel + 1, prev, acc, s =>
    match s with
    | [] => [acc]
    | c :: cs =>
      match sepAt prev (c :: cs) with
      | some (m, r) => acc :: m :: splitGoF fuel m.getLast? [] r
      | none => splitGoF fuel (some c) (acc ++ [c]) cs

/-- The parts list produced by `re.split` on the clause pattern. -/
def pythonSplitChars (q : String) : List (List Char) :=
  splitGoF q.data.length none [] q.data

/-- `re.split(r'(\bSELECT\b|...)', query, flags=re.IGNORECASE)`. -/
def pythonSplit (q : String) : List String :=
  (pythonSplitChars q).map String.mk

/-- The `while i < len(parts) - 1: ... i += 2` loop of app.py lines 78-91,
applied to `parts[1:]`: consecutive (separator, following piece) pairs. -/
def pairLoop : List String → List (String × String)
  | a :: b :: rest => (a, b) :: pairLoop rest
  | _ => []

/-- Python `str.rstrip(';')`: remove all trailing semicolons. -/
def rstripSemi (s : String) : String :=
  String.mk ((s.data.reverse.dropWhile (fun c => c == ';')).reverse)

/-- The human-readable label chosen per clause kind (app.py lines 82-89). -/
def descLabel (c : String) : String :=
  if c = "SELECT" then "Select columns → "
  else if c = "FROM" then "Load table → "
  else if c = "WHERE" then "Apply filter → "
  else c ++ " → "

/-- One step description: `clause = parts[i].strip().upper()`,
`content = parts[i+1].strip().rstrip(';')`, then the f-string. -/
def describeStep (clause content : String) : String :=
  descLabel (String.mk ((pyStrip clause.data).map Char.toUpper))
    ++ rstripSemi (String.mk (pyStrip content.data))

/-- `parse_sql_steps` of app.py lines 71-92. -/
def parse_sql_steps (q : String) : List String :=
  (pairLoop (pythonSplit q).tail).map (fun p => describeStep p.1 p.2)

/-- Number of separators the split finds, scanning exactly like `splitGoF`. -/
def countSepsF : Nat → Option Char → List Char → Nat
  | 0, _, _ => 0
  | fuel + 1, prev, s =>
    match s with
    | [] => 0
    | c :: cs =>
      match sepAt prev (c :: cs) with
      | some (m, r) => countSepsF fuel m.getLast? r + 1
      | none => countSepsF fuel (some c) cs

/-- Number of clause-keyword occurrences found by the descriptive split. -/
def countSeps (q : String) : Nat :=
  countSepsF q.data.length none q.data

/-- Whether the split pattern matches anywhere in the input (scanning every
start position without skipping). -/
def searchSep : Option Char → List Char → Bool
  | _, [] => false
  | prev, c :: cs => (sepAt prev (c :: cs)).isSome || searchSep (some c) cs

/-- The sample `students` table created by the app
(app.py lines 143-153): 3 rows × 3 columns. -/
def studentsTable : ResultSet :=
  [["1", "Alice", "A"], ["2", "Bob", "B"], ["3", "Charlie", "C"]]

/-- A database holding exactly the app's sample table, whose full-query
execution always succeeds with a 1×1 result. -/
def sampleDB : DB where
  readTable := fun t => if t = "students" then some studentsTable else none
  runQuery := fun _ => some [["1"]]

/-- Discriminator for base-table cell events. -/
def TraceEvent.isBaseCell : TraceEvent → Bool
  | .cell .base _ _ => true
  | _ => false

/-- Discriminator for aggregate cell events. -/
def TraceEvent.isAggCell : TraceEvent → Bool
  | .cell .agg _ _ => true
  | _ => false

/-- Discriminator for the completion event. -/
def TraceEvent.isComplete : TraceEvent → Bool
  | .complete => true
  | _ => false

/-- The line index of a clause event, if any. -/
def TraceEvent.clauseLine? : TraceEvent → Option Nat
  | .clause i => some i
  | _ => none

/-- The spec's Example 1 query. -/
def sampleQuery : String := "SELECT * FROM students;"

/-- The trace the engine produces for `sampleQuery` on `sampleDB`. -/
def sampleTrace : List TraceEvent :=
  [TraceEvent.clause 0,
   TraceEvent.cell CellMode.base 0 0, TraceEvent.cell CellMode.base 0 1,
   TraceEvent.cell CellMode.base 0 2, TraceEvent.cell CellMode.base 1 0,
   TraceEvent.cell CellMode.base 1 1, TraceEvent.cell CellMode.base 1 2,
   TraceEvent.cell CellMode.base 2 0, TraceEvent.cell CellMode.base 2 1,
   TraceEvent.cell CellMode.base 2 2, TraceEvent.complete]

/-- A query containing two aggregate invocations. -/
def aggQuery : String := "SELECT AVG(grade) FROM students, MAX(id) FROM students"

/-- The trace the engine produces for `aggQuery` on `sampleDB`. -/
def aggTrace : List TraceEvent :=
  [TraceEvent.clause 0,
   TraceEvent.cell CellMode.base 0 0, TraceEvent.cell CellMode.base 0 1,
   TraceEvent.cell CellMode.base 0 2, TraceEvent.cell CellMode.base 1 0,
   TraceEvent.cell CellMode.base 1 1, TraceEvent.cell CellMode.base 1 2,
   TraceEvent.cell CellMode.base 2 0, TraceEvent.cell CellMode.base 2 1,
   TraceEvent.cell CellMode.base 2 2, TraceEvent.cell CellMode.agg 0 0,
   TraceEvent.complete]

/-! ## Facts about the literal matchers and the splitter -/

theorem matchCI_spec : ∀ (ps s r : List Char), matchCI ps s = some r →
    s.take ps.length ++ r = s ∧ s.length = ps.length + r.length := by
  intro ps
  induction ps with
  | nil =>
    intro s r h
    simp only [matchCI, Option.some.injEq] at h
    subst h
    simp
  | cons p ps ih =>
    intro s r h
    cases s with
    | nil => simp [matchCI] at h
    | cons c cs =>
      rw [matchCI] at h
      split at h
      · obtain ⟨h1, h2⟩ := ih cs r h
        refine ⟨?_, ?_⟩
        · simp only [List.length_cons, List.take_succ_cons, List.cons_append, h1]
        · simp only [List.length_cons]
          omega
      · exact absurd h (by simp)

theorem kwMatch_spec {kw : String} {prev : Option Char} {s m r : List Char}
    (h : kwMatch kw prev s = some (m, r)) :
    m ++ r = s ∧ s.length = kw.data.length + r.length := by
  unfold kwMatch at h
  split at h
  · split at h
    next rest hm =>
      split at h
      · exact absurd h (by simp)
      · simp only [Option.some.injEq, Prod.mk.injEq] at h
        obtain ⟨h1, h2⟩ := h
        subst h1
        subst h2
        obtain ⟨hm1, hm2⟩ := matchCI_spec _ _ _ hm
        exact ⟨hm1, hm2⟩
    next hm => exact absurd h (by simp)
  · exact absurd h (by simp)

theorem firstKwMatch_spec : ∀ (pats : List String) (prev : Option Char) (s m r : List Char),
    (∀ kw ∈ pats, kw.data ≠ []) → firstKwMatch pats prev s = some (m, r) →
    m ++ r = s ∧ r.length < s.length := by
  intro pats
  induction pats with
  | nil => intro prev s m r _ h; simp [firstKwMatch] at h
  | cons kw kws ih =>
    intro prev s m r hne h
    rw [firstKwMatch] at h
    split at h
    next v hk =>
      simp only [Option.some.injEq] at h
      subst h
      obtain ⟨h1, h2⟩ := kwMatch_spec hk
      refine ⟨h1, ?_⟩
      have hkw : kw.data ≠ [] := hne kw (List.mem_cons_self _ _)
      have : 0 < kw.data.length := List.length_pos.mpr hkw
      omega
    next hk =>
      exact ih prev s m r (fun k hkm => hne k (List.mem_cons_of_mem _ hkm)) h

theorem sepAt_spec {prev : Option Char} {s m r : List Char} (h : sepAt prev s = some (m, r)) :
    m ++ r = s ∧ r.length < s.length :=
  firstKwMatch_spec split_pattern prev s m r (by decide) h

theorem splitGoF_join : ∀ (fuel : Nat) (prev : Option Char) (acc s : List Char),
    s.length ≤ fuel → (splitGoF fuel prev acc s).flatten = acc ++ s := by
  intro fuel
  induction fuel with
  | zero => intro prev acc s _; simp [splitGoF]
  | succ fuel ih =>
    intro prev acc s h
    cases s with
    | nil => simp [splitGoF]
    | cons c cs =>
      rw [splitGoF]
      split
      next m r hsep =>
        obtain ⟨hmr, hlt⟩ := sepAt_spec hsep
        have hr : r.length ≤ fuel := by
          simp only [List.length_cons] at h hlt
          omega
        simp only [List.flatten_cons, ih _ _ _ hr, List.nil_append]
        rw [hmr]
      next hsep =>
        have hc : cs.length ≤ fuel := by
          simp only [List.length_cons] at h
          omega
        rw [ih _ _ _ hc]
        simp

theorem splitGoF_length : ∀ (fuel : Nat) (prev : Option Char) (acc s : List Char),
    s.length ≤ fuel →
    (splitGoF fuel prev acc s).length = 2 * countSepsF fuel prev s + 1 := by
  intro fuel
  induction fuel with
  | zero => intro prev acc s _; simp [splitGoF, countSepsF]
  | succ fuel ih =>
    intro prev acc s h
    cases s with
    | nil => simp [splitGoF, countSepsF]
    | cons c cs =>
      rw [splitGoF, countSepsF]
      split
      next m r hsep =>
        obtain ⟨hmr, hlt⟩ := sepAt_spec hsep
        have hr : r.length ≤ fuel := by
          simp only [List.length_cons] at h hlt
          omega
        simp only [List.length_cons, ih _ _ _ hr]
        omega
      next hsep =>
        have hc : cs.length ≤ fuel := by
          simp only [List.length_cons] at h
          omega
        exact ih _ _ _ hc

theorem splitGoF_no_sep : ∀ (fuel : Nat) (prev : Option Char) (acc s : List Char),
    searchSep prev s = false → splitGoF fuel prev acc s = [acc ++ s] := by
  intro fuel
  induction fuel with
  | zero => intro prev acc s _; simp [splitGoF]
  | succ fuel ih =>
    intro prev acc s h
    cases s with
    | nil => simp [splitGoF]
    | cons c cs =>
      rw [searchSep] at h
      simp only [Bool.or_eq_false_iff] at h
      obtain ⟨h1, h2⟩ := h
      have hnone : sepAt prev (c :: cs) = none := by
        cases hx : sepAt prev (c :: cs)
        · rfl
        · rw [hx] at h1; simp at h1
      rw [splitGoF, hnone]
      rw [ih _ _ _ h2]
      simp

theorem pairLoop_length : ∀ (l : List String), (pairLoop l).length = l.length / 2
  | [] => by simp [pairLoop]
  | [a] => by simp [pairLoop]
  | a :: b :: rest => by
    rw [pairLoop]
    simp only [List.length_cons, pairLoop_length rest]
    omega

/-! ## Facts about the trace builder -/

theorem clauseEvents_mem {lines : List (List Char)} {e : TraceEvent}
    (h : e ∈ clauseEvents lines) : ∃ i, e = TraceEvent.clause i := by
  unfold clauseEvents at h
  obtain ⟨p, _, hpe⟩ := List.mem_filterMap.mp h
  by_cases hk : lineHasKeyword p.2 = true
  · simp only [hk, if_pos, Option.some.injEq] at hpe
    exact ⟨p.1, hpe.symm⟩
  · simp [hk] at hpe

theorem baseCellEvents_mem {df : ResultSet} {e : TraceEvent}
    (h : e ∈ baseCellEvents df) : ∃ i j, e = TraceEvent.cell CellMode.base i j := by
  unfold baseCellEvents at h
  obtain ⟨p, _, he⟩ := List.mem_flatMap.mp h
  obtain ⟨j, _, he2⟩ := List.mem_map.mp he
  exact ⟨p.1, j, he2.symm⟩

theorem countP_isAggCell_clauseEvents (lines : List (List Char)) :
    (clauseEvents lines).countP TraceEvent.isAggCell = 0 :=
  List.countP_eq_zero.mpr (by
    intro e he
    obtain ⟨i, rfl⟩ := clauseEvents_mem he
    simp [TraceEvent.isAggCell])

theorem countP_isAggCell_base (df : ResultSet) :
    (baseCellEvents df).countP TraceEvent.isAggCell = 0 :=
  List.countP_eq_zero.mpr (by
    intro e he
    obtain ⟨i, j, rfl⟩ := baseCellEvents_mem he
    simp [TraceEvent.isAggCell])

theorem countP_isComplete_clauseEvents (lines : List (List Char)) :
    (clauseEvents lines).countP TraceEvent.isComplete = 0 :=
  List.countP_eq_zero.mpr (by
    intro e he
    obtain ⟨i, rfl⟩ := clauseEvents_mem he
    simp [TraceEvent.isComplete])

theorem countP_isComplete_base (df : ResultSet) :
    (baseCellEvents df).countP TraceEvent.isComplete = 0 :=
  List.countP_eq_zero.mpr (by
    intro e he
    obtain ⟨i, j, rfl⟩ := baseCellEvents_mem he
    simp [TraceEvent.isComplete])

theorem filter_isBaseCell_clauseEvents (lines : List (List Char)) :
    (clauseEvents lines).filter TraceEvent.isBaseCell = [] :=
  List.filter_eq_nil_iff.mpr (by
    intro e he
    obtain ⟨i, rfl⟩ := clauseEvents_mem he
    simp [TraceEvent.isBaseCell])

theorem filter_isBaseCell_base (df : ResultSet) :
    (baseCellEvents df).filter TraceEvent.isBaseCell = baseCellEvents df :=
  List.filter_eq_self.mpr (by
    intro e he
    obtain ⟨i, j, rfl⟩ := baseCellEvents_mem he
    simp [TraceEvent.isBaseCell])

theorem clauseLines_clauseEvents (lines : List (List Char)) :
    (clauseEvents lines).filterMap TraceEvent.clauseLine?
      = lines.enum.filterMap (fun p => if lineHasKeyword p.2 then some p.1 else none) := by
  unfold clauseEvents
  rw [List.filterMap_filterMap]
  congr 1
  funext p
  by_cases hk : lineHasKeyword p.2 = true <;>
    simp [hk, TraceEvent.clauseLine?]

theorem clauseLines_base (df : ResultSet) :
    (baseCellEvents df).filterMap TraceEvent.clauseLine? = [] :=
  List.filterMap_eq_nil_iff.mpr (by
    intro e he
    obtain ⟨i, j, rfl⟩ := baseCellEvents_mem he
    simp [TraceEvent.clauseLine?])

theorem gen_some_eq {q : String} {db : DB} {tr : List TraceEvent} {dfb : ResultSet}
    {dfa : Option ResultSet}
    (h : generate_execution_trace q db = some (tr, dfb, dfa)) :
    tr = clauseEvents (splitNL (pyStrip q.data)) ++ baseCellEvents dfb
          ++ (if (aggSearch q).isSome then [TraceEvent.cell CellMode.agg 0 0] else [])
          ++ [TraceEvent.complete]
    ∧ dfa.isSome = (aggSearch q).isSome := by
  unfold generate_execution_trace at h
  split at h
  · exact absurd h (by simp)
  next df_base hread =>
    split at h
    next r hm =>
      split at h
      · exact absurd h (by simp)
      next df_agg hrun =>
        simp only [Option.some.injEq, Prod.mk.injEq] at h
        obtain ⟨h1, h2, h3⟩ := h
        subst h2
        subst h1
        subst h3
        simp [hm]
    next hm =>
      simp only [Option.some.injEq, Prod.mk.injEq] at h
      obtain ⟨h1, h2, h3⟩ := h
      subst h2
      subst h1
      subst h3
      simp [hm]

theorem snd_mem_of_mem_enumFrom {α : Type _} :
    ∀ (l : List α) (n : Nat) (p : Nat × α), p ∈ l.enumFrom n → p.2 ∈ l := by
  intro l
  induction l with
  | nil => intro n p h; simp at h
  | cons a l ih =>
    intro n p h
    rw [List.enumFrom_cons] at h
    rcases List.mem_cons.mp h with h | h
    · subst h; simp
    · exact List.mem_cons_of_mem _ (ih (n + 1) p h)

theorem snd_mem_of_mem_enum {α : Type _} {l : List α} {p : Nat × α}
    (h : p ∈ l.enum) : p.2 ∈ l :=
  snd_mem_of_mem_enumFrom l 0 p h

theorem get?_mem_enumFrom {α : Type _} :
    ∀ (l : List α) (n i : Nat) (a : α), l.get? i = some a → (n + i, a) ∈ l.enumFrom n := by
  intro l
  induction l with
  | nil => intro n i a h; simp [List.get?] at h
  | cons b l ih =>
    intro n i a h
    cases i with
    | zero =>
      simp only [List.get?, Option.some.injEq] at h
      subst h
      simp [List.enumFrom_cons]
    | succ i =>
      simp only [List.get?] at h
      have hmem := ih (n + 1) i a h
      rw [List.enumFrom_cons]
      have heq : n + (i + 1) = n + 1 + i := by omega
      rw [heq]
      exact List.mem_cons_of_mem _ hmem

theorem filterMap_if_fst_sublist (l : List (Nat × List Char)) (c : List Char → Bool) :
    (l.filterMap (fun p => if c p.2 then some p.1 else none)).Sublist (l.map Prod.fst) := by
  induction l with
  | nil => simp
  | cons a l ih =>
    by_cases hc : c a.2 = true
    · simp only [List.filterMap_cons, hc, if_pos, List.map_cons]
      exact List.Sublist.cons₂ _ ih
    · simp only [List.filterMap_cons, hc, if_neg, Bool.false_eq_true, not_false_eq_true,
        List.map_cons]
      exact List.Sublist.cons _ ih

theorem cellWalk_row_major :
    ∀ (df : ResultSet) (C : Nat), (∀ row ∈ df, row.length = C) →
    ∀ (i0 : Nat),
      (df.enumFrom i0).flatMap
          (fun p => (List.range p.2.length).map (fun j => TraceEvent.cell CellMode.base p.1 j))
        = (List.range (df.length * C)).map
            (fun k => TraceEvent.cell CellMode.base (i0 + k / C) (k % C)) := by
  intro df
  induction df with
  | nil => intro C _ i0; simp
  | cons row rest ih =>
    intro C hC i0
    have hrow : row.length = C := hC row (List.mem_cons_self _ _)
    have hrest : ∀ r ∈ rest, r.length = C := fun r hr => hC r (List.mem_cons_of_mem _ hr)
    rw [List.enumFrom_cons, List.flatMap_cons, ih C hrest (i0 + 1), hrow]
    rcases Nat.eq_zero_or_pos C with hC0 | hCpos
    · subst hC0
      simp
    · rw [List.length_cons]
      have hlen : (rest.length + 1) * C = C + rest.length * C := by ring
      rw [hlen, List.range_add, List.map_append, List.map_map]
      congr 1
      · apply List.map_congr_left
        intro j hj
        have hjC : j < C := List.mem_range.mp hj
        simp [Nat.div_eq_of_lt hjC, Nat.mod_eq_of_lt hjC]
      · apply List.map_congr_left
        intro k _
        simp only [Function.comp]
        have h1 : (C + k) / C = k / C + 1 := by
          rw [Nat.add_comm C k, Nat.add_div_right _ hCpos]
        have h2 : (C + k) % C = k % C := by
          rw [Nat.add_comm C k, Nat.add_mod_right]
        rw [h1, h2]
        have h3 : i0 + (k / C + 1) = i0 + 1 + k / C := by omega
        rw [h3]

theorem baseCellEvents_row_major (df : ResultSet) (C : Nat)
    (hC : ∀ row ∈ df, row.length = C) :
    baseCellEvents df
      = (List.range (df.length * C)).map
          (fun k => TraceEvent.cell CellMode.base (k / C) (k % C)) := by
  unfold baseCellEvents
  rw [show df.enum = df.enumFrom 0 from rfl, cellWalk_row_major df C hC 0]
  simp

theorem string_mk_data (s : String) : String.mk s.data = s := rfl

/-! ## The claims -/

/-- C1: The spec requires that a query in which no `FROM` clause and no
aggregate pattern is found never makes the trace builder raise: the base
result set should be treated as empty and the trace should still end with a
completion event, for every query string including the empty one.  The code
violates this: it interpolates Python `None` into the SQL text and executes
`SELECT * FROM None`, which raises (no table named `None` exists).  On the
empty query against the app's own sample database the builder therefore
produces no trace at all instead of a completion-only trace. -/
theorem empty_query_trace_fails : generate_execution_trace "" sampleDB = none := by
  decide

/-- C2: Whenever the trace builder returns an event sequence, it has the
fixed shape: the clause events (in line order) first, then all base-table
cell events, then the aggregate cell event exactly when an aggregate was
detected, then exactly one completion event as the final element; hence the
sequence is never empty. -/
theorem trace_fixed_shape (q : String) (db : DB) (tr : List TraceEvent) (dfb : ResultSet)
    (dfa : Option ResultSet)
    (h : generate_execution_trace q db = some (tr, dfb, dfa)) :
    tr = clauseEvents (splitNL (pyStrip q.data)) ++ baseCellEvents dfb
          ++ (if (aggSearch q).isSome then [TraceEvent.cell CellMode.agg 0 0] else [])
          ++ [TraceEvent.complete]
    ∧ (∀ e ∈ clauseEvents (splitNL (pyStrip q.data)), ∃ i, e = TraceEvent.clause i)
    ∧ (∀ e ∈ baseCellEvents dfb, ∃ i j, e = TraceEvent.cell CellMode.base i j)
    ∧ tr.countP TraceEvent.isComplete = 1
    ∧ tr.getLast? = some TraceEvent.complete
    ∧ tr ≠ [] := by
  obtain ⟨hdecomp, -⟩ := gen_some_eq h
  refine ⟨hdecomp, fun e he => clauseEvents_mem he, fun e he => baseCellEvents_mem he,
    ?_, ?_, ?_⟩
  · rw [hdecomp]
    rw [List.countP_append, List.countP_append, List.countP_append,
      countP_isComplete_clauseEvents, countP_isComplete_base]
    cases hb : (aggSearch q).isSome <;>
      simp [hb, TraceEvent.isComplete, List.countP_cons, List.countP_nil]
  · rw [hdecomp]
    exact List.getLast?_concat _
  · rw [hdecomp]
    simp

/-- Witness for C2 at the spec's Example 1 input. -/
theorem trace_fixed_shape_witness :
    sampleTrace.countP TraceEvent.isComplete = 1 ∧ sampleTrace ≠ [] := by
  have h := trace_fixed_shape sampleQuery sampleDB sampleTrace studentsTable none (by decide)
  exact ⟨h.2.2.2.1, h.2.2.2.2.2⟩

/-- C3: With no aggregate detected and a base result set of `R` rows that
all have `C` columns, the produced trace contains exactly `R*C` base-cell
events, and the `k`-th of them (0-indexed among base-cell events) reveals
row `k / C` and column `k % C` — row-major order. -/
theorem base_cells_row_major (q : String) (db : DB) (tr : List TraceEvent) (dfb : ResultSet)
    (dfa : Option ResultSet) (C : Nat)
    (h : generate_execution_trace q db = some (tr, dfb, dfa))
    (hagg : aggSearch q = none)
    (hC : ∀ row ∈ dfb, row.length = C)
    (hne : dfb ≠ []) :
    tr.filter TraceEvent.isBaseCell
      = (List.range (dfb.length * C)).map
          (fun k => TraceEvent.cell CellMode.base (k / C) (k % C))
    ∧ (tr.filter TraceEvent.isBaseCell).length = dfb.length * C := by
  obtain ⟨hdecomp, -⟩ := gen_some_eq h
  have hfilter : tr.filter TraceEvent.isBaseCell = baseCellEvents dfb := by
    rw [hdecomp, hagg]
    rw [List.filter_append, List.filter_append, List.filter_append,
      filter_isBaseCell_clauseEvents, filter_isBaseCell_base]
    simp [TraceEvent.isBaseCell]
  have h1 := baseCellEvents_row_major dfb C hC
  refine ⟨hfilter.trans h1, ?_⟩
  rw [hfilter, h1]
  simp

/-- Witness for C3 at the spec's Example 1 input (3 rows × 3 columns). -/
theorem base_cells_row_major_witness :
    sampleTrace.filter TraceEvent.isBaseCell
      = (List.range (studentsTable.length * 3)).map
          (fun k => TraceEvent.cell CellMode.base (k / 3) (k % 3)) :=
  (base_cells_row_major sampleQuery sampleDB sampleTrace studentsTable none 3
    (by decide) (by decide) (by decide) (by decide)).1

/-- C4: Clause events appear in strictly ascending line-index order, each
line index occurs at most once, and a line containing two or more
recognized keywords still produces exactly one clause event (first match
wins). -/
theorem clause_events_ascending (q : String) (db : DB) (tr : List TraceEvent)
    (dfb : ResultSet) (dfa : Option ResultSet)
    (h : generate_execution_trace q db = some (tr, dfb, dfa)) :
    (tr.filterMap TraceEvent.clauseLine?).Pairwise (· < ·)
    ∧ (∀ idx, (tr.filterMap TraceEvent.clauseLine?).count idx ≤ 1)
    ∧ (∀ idx line, (splitNL (pyStrip q.data)).get? idx = some line →
        2 ≤ activity_keywords.countP (fun kw => searchKw kw none line) →
        (tr.filterMap TraceEvent.clauseLine?).count idx = 1) := by
  obtain ⟨hdecomp, -⟩ := gen_some_eq h
  have hlines : tr.filterMap TraceEvent.clauseLine?
      = (splitNL (pyStrip q.data)).enum.filterMap
          (fun p => if lineHasKeyword p.2 then some p.1 else none) := by
    rw [hdecomp]
    rw [List.filterMap_append, List.filterMap_append, List.filterMap_append,
      clauseLines_clauseEvents, clauseLines_base]
    cases hb : (aggSearch q).isSome <;>
      simp [hb, TraceEvent.clauseLine?, List.filterMap_cons, List.filterMap_nil]
  have hpair : (tr.filterMap TraceEvent.clauseLine?).Pairwise (· < ·) := by
    rw [hlines]
    have hsub := filterMap_if_fst_sublist (splitNL (pyStrip q.data)).enum lineHasKeyword
    rw [List.enum_map_fst] at hsub
    exact (List.pairwise_lt_range _).sublist hsub
  have hnodup : (tr.filterMap TraceEvent.clauseLine?).Nodup :=
    hpair.imp (fun hlt => Nat.ne_of_lt hlt)
  have hle1 : ∀ idx, (tr.filterMap TraceEvent.clauseLine?).count idx ≤ 1 :=
    fun idx => List.nodup_iff_count_le_one.mp hnodup idx
  refine ⟨hpair, hle1, ?_⟩
  intro idx line hget hkw2
  have hkwpos : 0 < activity_keywords.countP (fun kw => searchKw kw none line) := by
    omega
  obtain ⟨kw, hkwmem, hkwp⟩ := List.countP_pos.mp hkwpos
  have hline : lineHasKeyword line = true :=
    List.any_eq_true.mpr ⟨kw, hkwmem, hkwp⟩
  have hmem : idx ∈ tr.filterMap TraceEvent.clauseLine? := by
    rw [hlines]
    apply List.mem_filterMap.mpr
    refine ⟨(idx, line), ?_, by simp [hline]⟩
    have h0 := get?_mem_enumFrom (splitNL (pyStrip q.data)) 0 idx line hget
    rw [Nat.zero_add] at h0
    exact h0
  have hpos := List.count_pos_iff.mpr hmem
  have hle := hle1 idx
  omega

/-- Witness for C4: a one-line query whose single line contains both SELECT
and FROM. -/
theorem clause_events_ascending_witness :
    (sampleTrace.filterMap TraceEvent.clauseLine?).Pairwise (· < ·)
    ∧ (sampleTrace.filterMap TraceEvent.clauseLine?).count 0 = 1 := by
  have h := clause_events_ascending sampleQuery sampleDB sampleTrace studentsTable none
    (by decide)
  exact ⟨h.1, h.2.2 0 sampleQuery.data (by decide) (by decide)⟩

/-- C5: When the aggregate pattern matches the query, the produced trace
contains exactly one aggregate cell event, at row 0 and column 0, placed
after all base-cell events and immediately before the completion event —
also when the query contains several aggregate invocations. -/
theorem agg_cell_unique (q : String) (db : DB) (tr : List TraceEvent) (dfb : ResultSet)
    (dfa : Option ResultSet)
    (h : generate_execution_trace q db = some (tr, dfb, dfa))
    (hm : (aggSearch q).isSome = true) :
    tr = clauseEvents (splitNL (pyStrip q.data)) ++ baseCellEvents dfb
          ++ [TraceEvent.cell CellMode.agg 0 0] ++ [TraceEvent.complete]
    ∧ tr.countP TraceEvent.isAggCell = 1 := by
  obtain ⟨hdecomp, -⟩ := gen_some_eq h
  constructor
  · rw [hdecomp]
    simp [hm]
  · rw [hdecomp]
    rw [List.countP_append, List.countP_append, List.countP_append,
      countP_isAggCell_clauseEvents, countP_isAggCell_base]
    simp [hm, TraceEvent.isAggCell, List.countP_cons, List.countP_nil]

/-- Witness for C5 at a query with two aggregate invocations. -/
theorem agg_cell_unique_witness : aggTrace.countP TraceEvent.isAggCell = 1 :=
  (agg_cell_unique aggQuery sampleDB aggTrace studentsTable (some [["1"]])
    (by decide) (by decide)).2

/-- C6 counterexample: on a query whose `FROM` keyword occurs twice,
`parse_sql_steps` produces a separate step for the second occurrence,
refuting "later occurrences of an already-seen keyword do not produce
additional steps". -/
theorem parse_steps_repeated_from_cex :
    parse_sql_steps "SELECT a FROM b FROM c"
      = ["Select columns → a", "Load table → b", "Load table → c"] := by
  decide

/-- C6 amended: the single linear split recognizes every non-overlapping
occurrence of the clause keywords, and every found occurrence — including a
repeat of an already-seen keyword — produces exactly one step. -/
theorem parse_steps_every_occurrence (q : String) :
    (parse_sql_steps q).length = countSeps q := by
  unfold parse_sql_steps pythonSplit pythonSplitChars countSeps
  rw [List.length_map, pairLoop_length, List.length_tail, List.length_map,
    splitGoF_length _ _ _ _ (Nat.le_refl _)]
  omega

/-- C7: Concatenating the parts of the split restores the raw query exactly,
so the content slot of each step is the verbatim text between its clause
keyword and the next recognized keyword; the step's body is exactly that
text whitespace-trimmed at both ends and then stripped of trailing
semicolons. -/
theorem step_bodies_verbatim (q : String) :
    (pythonSplitChars q).flatten = q.data
    ∧ (∀ k cl co, (pairLoop (pythonSplit q).tail).get? k = some (cl, co) →
        (parse_sql_steps q).get? k
          = some (descLabel (String.mk ((pyStrip cl.data).map Char.toUpper))
                    ++ rstripSemi (String.mk (pyStrip co.data)))) := by
  constructor
  · exact splitGoF_join _ _ _ _ (Nat.le_refl _)
  · intro k cl co hk
    unfold parse_sql_steps
    rw [List.get?_map, hk]
    rfl

/-- C8: The trace builder is deterministic: two databases that answer every
table read and every full-query run identically yield identical results on
every query. -/
theorem trace_deterministic (q : String) (db1 db2 : DB)
    (h1 : db1.readTable = db2.readTable) (h2 : db1.runQuery = db2.runQuery) :
    generate_execution_trace q db1 = generate_execution_trace q db2 := by
  cases db1 with
  | mk rt1 rq1 =>
    cases db2 with
    | mk rt2 rq2 =>
      have e1 : rt1 = rt2 := h1
      have e2 : rq1 = rq2 := h2
      subst e1
      subst e2
      rfl

/-- Witness for C8. -/
theorem trace_deterministic_witness :
    generate_execution_trace sampleQuery sampleDB
      = generate_execution_trace sampleQuery sampleDB :=
  trace_deterministic sampleQuery sampleDB sampleDB rfl rfl

/-- C9: The clause locator is total by construction (it is a pure scan);
when no line of the query contains a recognized keyword and the split
pattern matches nowhere, there are zero clause events, the split returns
the whole query as its only part, and the descriptive step list is empty. -/
theorem no_keyword_empty (q : String)
    (h1 : ∀ l ∈ splitNL (pyStrip q.data), lineHasKeyword l = false)
    (h2 : searchSep none q.data = false) :
    clauseEvents (splitNL (pyStrip q.data)) = []
    ∧ pythonSplit q = [q]
    ∧ parse_sql_steps q = [] := by
  have hce : clauseEvents (splitNL (pyStrip q.data)) = [] := by
    unfold clauseEvents
    apply List.filterMap_eq_nil_iff.mpr
    intro p hp
    have hmem : p.2 ∈ splitNL (pyStrip q.data) := snd_mem_of_mem_enum hp
    simp [h1 p.2 hmem]
  have hsplit : pythonSplit q = [q] := by
    unfold pythonSplit pythonSplitChars
    rw [splitGoF_no_sep _ _ _ _ h2]
    simp [string_mk_data]
  refine ⟨hce, hsplit, ?_⟩
  unfold parse_sql_steps
  rw [hsplit]
  rfl

/-- Witness for C9 at a keyword-free query. -/
theorem no_keyword_empty_witness :
    clauseEvents (splitNL (pyStrip "hello world".data)) = []
    ∧ pythonSplit "hello world" = ["hello world"]
    ∧ parse_sql_steps "hello world" = [] :=
  no_keyword_empty "hello world" (by decide) (by decide)

/-- C10: The trace contains an aggregate cell event iff the returned
aggregate result set is not `None`, iff the aggregate regex matched the
query; and when no aggregate pattern matches, the full original query is
never executed (the builder's output does not depend on the full-query
oracle at all). -/
theorem agg_event_iff_df_agg (q : String) :
    ((aggSearch q) = none → ∀ (rt r1 r2 : String → Option ResultSet),
        generate_execution_trace q (DB.mk rt r1) = generate_execution_trace q (DB.mk rt r2))
    ∧ (∀ (db : DB) (tr : List TraceEvent) (dfb : ResultSet) (dfa : Option ResultSet),
        generate_execution_trace q db = some (tr, dfb, dfa) →
        ((0 < tr.countP TraceEvent.isAggCell) ↔ dfa ≠ none)
        ∧ (dfa ≠ none ↔ (aggSearch q) ≠ none)) := by
  constructor
  · intro hnone rt r1 r2
    unfold generate_execution_trace
    rw [hnone]
  · intro db tr dfb dfa h
    obtain ⟨hdecomp, hiff⟩ := gen_some_eq h
    have hcount : tr.countP TraceEvent.isAggCell
        = if (aggSearch q).isSome then 1 else 0 := by
      rw [hdecomp]
      rw [List.countP_append, List.countP_append, List.countP_append,
        countP_isAggCell_clauseEvents, countP_isAggCell_base]
      cases hb : (aggSearch q).isSome <;>
        simp [hb, TraceEvent.isAggCell, List.countP_cons, List.countP_nil]
    constructor
    · rw [hcount]
      cases dfa with
      | none =>
        simp only [Option.isSome_none] at hiff
        rw [← hiff]
        simp
      | some v =>
        simp only [Option.isSome_some] at hiff
        rw [← hiff]
        simp
    · rw [Option.ne_none_iff_isSome, Option.ne_none_iff_isSome, hiff]

/-- Witness for C10. -/
theorem agg_event_iff_df_agg_witness :
    (generate_execution_trace sampleQuery (DB.mk sampleDB.readTable (fun _ => none))
        = generate_execution_trace sampleQuery (DB.mk sampleDB.readTable (fun _ => some [["0"]])))
    ∧ ((0 < sampleTrace.countP TraceEvent.isAggCell) ↔ (none : Option ResultSet) ≠ none) :=
  ⟨(agg_event_iff_df_agg sampleQuery).1 (by decide) sampleDB.readTable
      (fun _ => none) (fun _ => some [["0"]]),
   ((agg_event_iff_df_agg sampleQuery).2 sampleDB sampleTrace studentsTable none (by decide)).1⟩

end SQLViz
